import Mathlib

/-!
Verification of the `fahdi/ai-forecasting` repository against its
natural-language specification.

The repository consists of business documentation, a Next.js dashboard UI
(`src/src/components/dashboard.tsx`, `src/frontend/src/components/models.tsx`,
`src/unnamed/part_002` = `forecasts.tsx`), and a thin fetch-based API client
(`ApiService` in `src/frontend/src/components/models.tsx`).  The spec's §4-§8
describe a forecast job engine that is absent from the source; those parts are
modelled from the spec, with doc comments saying so.

UI components are embedded as: an initial state (the literal passed to
`useState`), an update function over the events the JSX wires up (an element
with no handler leaves the state unchanged), and a render function extracting
the numeric values the JSX displays.  JavaScript objects used as header maps
are embedded as association lists where the LAST binding of a key wins,
matching object-spread semantics.
-/

namespace UI

/-- One entry of `DashboardStats.recentForecasts` in `dashboard.tsx`. -/
structure RecentForecast where
  symbol : String
  prediction : ℚ
  change : ℚ
  timestamp : String
  deriving DecidableEq

/-- One entry of `DashboardStats.performanceData` in `dashboard.tsx`. -/
structure PerformancePoint where
  date : String
  accuracy : ℚ
  volume : ℚ
  deriving DecidableEq

/-- The `DashboardStats` interface of `dashboard.tsx`. -/
structure DashboardStats where
  totalForecasts : ℕ
  activeModels : ℕ
  dataPoints : ℕ
  accuracy : ℚ
  recentForecasts : List RecentForecast
  performanceData : List PerformancePoint
  deriving DecidableEq

/-- The literal passed to `useState<DashboardStats>` in `Dashboard`
(`dashboard.tsx` lines 39-58). -/
def dashboardInit : DashboardStats :=
  { totalForecasts := 1247
    activeModels := 8
    dataPoints := 45678
    accuracy := 87.3
    recentForecasts :=
      [ ⟨"AAPL", 185.42, 2.3, "2024-01-15"⟩
      , ⟨"GOOGL", 142.18, -1.2, "2024-01-15"⟩
      , ⟨"MSFT", 378.95, 3.1, "2024-01-15"⟩
      , ⟨"TSLA", 245.67, -0.8, "2024-01-15"⟩ ]
    performanceData :=
      [ ⟨"Jan 10", 85, 120⟩, ⟨"Jan 11", 87, 145⟩, ⟨"Jan 12", 89, 167⟩
      , ⟨"Jan 13", 86, 134⟩, ⟨"Jan 14", 88, 156⟩, ⟨"Jan 15", 87, 142⟩ ] }

/-- The interactive elements of `Dashboard`: a single "Generate Forecast"
button. -/
inductive DashboardEvent
  | generateForecastClick
  deriving DecidableEq

/-- State update of `Dashboard` per event.  The "Generate Forecast" button has
no `onClick` handler and `setStats` is never called, so every event leaves the
state unchanged. -/
def dashboardUpdate (s : DashboardStats) : DashboardEvent → DashboardStats
  | .generateForecastClick => s

/-- The numeric values `Dashboard`'s JSX renders: the four stat cards, the
recent-forecast rows (prediction and change), and the chart rows (accuracy and
volume). -/
structure DashboardDisplay where
  totalForecasts : ℕ
  activeModels : ℕ
  dataPoints : ℕ
  accuracy : ℚ
  recentRows : List (String × ℚ × ℚ)
  perfRows : List (ℚ × ℚ)
  deriving DecidableEq

/-- Extraction of the displayed values from the `Dashboard` state, following
the JSX of `dashboard.tsx`. -/
def dashboardRender (s : DashboardStats) : DashboardDisplay :=
  { totalForecasts := s.totalForecasts
    activeModels := s.activeModels
    dataPoints := s.dataPoints
    accuracy := s.accuracy
    recentRows := s.recentForecasts.map (fun f => (f.symbol, f.prediction, f.change))
    perfRows := s.performanceData.map (fun p => (p.accuracy, p.volume)) }

/-- The `Model` interface of `models.tsx`. -/
structure MLModel where
  id : String
  name : String
  mtype : String
  symbol : String
  accuracy : ℚ
  status : String
  lastUpdated : String
  version : String
  deriving DecidableEq

/-- The literal passed to `useState<Model[]>` in `Models`
(`models.tsx` lines 23-54). -/
def modelsInit : List MLModel :=
  [ ⟨"1", "Ensemble Model", "ensemble", "AAPL", 87.3, "active", "2024-01-15T10:30:00Z", "v1.2.0"⟩
  , ⟨"2", "XGBoost Model", "xgboost", "GOOGL", 84.7, "training", "2024-01-15T09:15:00Z", "v1.1.5"⟩
  , ⟨"3", "LSTM Model", "lstm", "MSFT", 89.2, "active", "2024-01-15T08:45:00Z", "v1.3.0"⟩ ]

/-- The interactive elements of `Models`: the "Train New Model" button and the
per-row settings/play buttons. -/
inductive ModelsEvent
  | trainNewModelClick
  | settingsClick (id : String)
  | playClick (id : String)
  deriving DecidableEq

/-- State update of `Models` per event.  None of the three buttons has an
`onClick` handler and `setModels` is never called, so every event leaves the
state unchanged. -/
def modelsUpdate (ms : List MLModel) : ModelsEvent → List MLModel
  | .trainNewModelClick => ms
  | .settingsClick _ => ms
  | .playClick _ => ms

/-- The numeric values `Models`'s JSX renders: the active count, the training
count, the average accuracy (`models.reduce((acc, m) => acc + m.accuracy, 0) /
models.length`), and the per-row accuracies. -/
structure ModelsDisplay where
  activeCount : ℕ
  trainingCount : ℕ
  avgAccuracy : ℚ
  rows : List (String × ℚ)
  deriving DecidableEq

/-- Extraction of the displayed values from the `Models` state, following the
JSX of `models.tsx`. -/
def modelsRender (ms : List MLModel) : ModelsDisplay :=
  { activeCount := (ms.filter (fun m => m.status == "active")).length
    trainingCount := (ms.filter (fun m => m.status == "training")).length
    avgAccuracy := (ms.foldl (fun acc m => acc + m.accuracy) 0) / (ms.length : ℚ)
    rows := ms.map (fun m => (m.symbol, m.accuracy)) }

/-- The `Forecast` interface of `forecasts.tsx`. -/
structure ForecastRow where
  id : String
  symbol : String
  modelType : String
  horizon : ℕ
  status : String
  prediction : ℚ
  confidence : ℚ
  createdAt : String
  deriving DecidableEq

/-- The `newForecast` form state of `forecasts.tsx`. -/
structure NewForecastForm where
  symbol : String
  modelType : String
  horizon : ℕ
  deriving DecidableEq

/-- The combined state of the `Forecasts` component: the two `useState` hooks
of `forecasts.tsx`. -/
structure ForecastsState where
  forecasts : List ForecastRow
  newForecast : NewForecastForm
  deriving DecidableEq

/-- The literals passed to the two `useState` hooks in `Forecasts`
(`forecasts.tsx` lines 26-63). -/
def forecastsInit : ForecastsState :=
  { forecasts :=
      [ ⟨"1", "AAPL", "ensemble", 7, "completed", 185.42, 87.3, "2024-01-15T10:30:00Z"⟩
      , ⟨"2", "GOOGL", "xgboost", 30, "running", 142.18, 82.1, "2024-01-15T09:15:00Z"⟩
      , ⟨"3", "MSFT", "lstm", 7, "completed", 378.95, 89.7, "2024-01-15T08:45:00Z"⟩ ]
    newForecast := ⟨"", "ensemble", 7⟩ }

/-- The interactive elements of `Forecasts`: the symbol input, the two selects,
and the "Generate Forecast" button. -/
inductive ForecastsEvent
  | symbolChange (value : String)
  | modelTypeChange (value : String)
  | horizonChange (value : ℕ)
  | generateClick
  deriving DecidableEq

/-- State update of `Forecasts` per event, following the handlers in
`forecasts.tsx`: the three form controls call `setNewForecast` (the symbol
input upper-cases its value), and the "Generate Forecast" button has no
`onClick` handler; `setForecasts` is never called. -/
def forecastsUpdate (st : ForecastsState) : ForecastsEvent → ForecastsState
  | .symbolChange v =>
      { st with newForecast := { st.newForecast with symbol := v.toUpper } }
  | .modelTypeChange v =>
      { st with newForecast := { st.newForecast with modelType := v } }
  | .horizonChange v =>
      { st with newForecast := { st.newForecast with horizon := v } }
  | .generateClick => st

/-- The numeric values `Forecasts`'s JSX renders in the table: per row the
prediction and confidence. -/
def forecastsRender (st : ForecastsState) : List (String × ℚ × ℚ) :=
  st.forecasts.map (fun f => (f.symbol, f.prediction, f.confidence))

end UI

namespace ApiClient

/-- A JavaScript object used as a header map, embedded as an association list
where the last binding of a key wins (object-spread semantics). -/
def JSObj := List (String × String)

/-- Lookup in a `JSObj`: the last binding of the key wins. -/
def objGet (o : JSObj) (k : String) : Option String :=
  (o.reverse.find? (fun p => p.1 == k)).map (fun p => p.2)

/-- The body passed to `fetch`: either a JSON string or `FormData` parts. -/
inductive FetchBody
  | jsonBody (payload : String)
  | formBody (parts : List (String × String))
  deriving DecidableEq

/-- The `options?: RequestInit` argument of `ApiService.request`.  A field is
`none` exactly when the JavaScript object literal does not have that own
property (so a top-level spread of the object does not touch that key). -/
structure RequestOptions where
  method : Option String
  body : Option FetchBody
  headers : Option JSObj

/-- The headers of the init object `ApiService.request` passes to `fetch`
(`models.tsx` lines 230-236): the literal is
`{ headers: { 'Content-Type': 'application/json', ...options?.headers }, ...options }`,
so the merged default headers are overwritten by `options.headers` whenever
`options` has an own `headers` property (the top-level `...options` spread is
written after the `headers:` key). -/
def requestFetchHeaders (options : Option RequestOptions) : JSObj :=
  let innerSpread : JSObj :=
    match options with
    | some o => o.headers.getD []
    | none => []
  let merged : JSObj := ("Content-Type", "application/json") :: innerSpread
  match options with
  | some o =>
      match o.headers with
      | some h => h
      | none => merged
  | none => merged

/-- The full init object `ApiService.request` passes to `fetch`. -/
structure FetchInit where
  method : Option String
  body : Option FetchBody
  headers : JSObj

/-- The init object built by `ApiService.request` from its `options` argument:
`{ headers: merged, ...options }`. -/
def requestFetchInit (options : Option RequestOptions) : FetchInit :=
  { method := options.bind (fun o => o.method)
    body := options.bind (fun o => o.body)
    headers := requestFetchHeaders options }

/-- The options `ApiService.uploadData` passes to `request`
(`models.tsx` lines 284-295): a `FormData` body with the file, symbol and
source parts, and an explicit empty `headers: {}` meant to let the browser set
the multipart `Content-Type`. -/
def uploadDataOptions (file symbol source : String) : RequestOptions :=
  { method := some "POST"
    body := some (FetchBody.formBody [("file", file), ("symbol", symbol), ("source", source)])
    headers := some [] }

/-- The options `ApiService.createForecast` passes to `request`
(`models.tsx` lines 251-256): a JSON body and no `headers` key. -/
def createForecastOptions (payload : String) : RequestOptions :=
  { method := some "POST"
    body := some (FetchBody.jsonBody payload)
    headers := none }

/-- The JSON body `ApiService.trainModel` posts to `/api/v1/models/train`
(`models.tsx` lines 298-308). -/
structure TrainRequestBody where
  symbol : String
  model_type : String
  test_size : ℚ
  retrain_existing : Bool
  deriving DecidableEq

/-- The body record `ApiService.trainModel` stringifies; `testSize` is an
optional argument with JavaScript default `0.2`, and `retrain_existing` is the
literal `false`. -/
def trainModelBody (symbol modelType : String) (testSize : Option ℚ) : TrainRequestBody :=
  { symbol := symbol
    model_type := modelType
    test_size := testSize.getD 0.2
    retrain_existing := false }

end ApiClient

namespace Engine

/-- Modelled from the spec: the Job lifecycle states of §3 — the repository
contains no job engine, only the UI that would display these states. -/
inductive JobStatus
  | pending
  | running
  | completed
  | failed
  deriving DecidableEq

/-- Modelled from the spec: the kind of a Job (§3). -/
inductive JobKind
  | forecast
  | batchForecast
  | train
  deriving DecidableEq

/-- Modelled from the spec: one Prediction of §3 —
{date, point_estimate, confidence_lower, confidence_upper, probability_up}. -/
structure Prediction where
  date : ℕ
  point_estimate : ℚ
  confidence_lower : ℚ
  confidence_upper : ℚ
  probability_up : ℚ
  deriving DecidableEq

/-- Modelled from the spec: a Job's result — an ordered sequence of
Predictions (§3). -/
structure JobResult where
  predictions : List Prediction
  deriving DecidableEq

/-- Modelled from the spec: the Job record of §3 (timestamps omitted; the
`symbols` field holds one symbol for a forecast/training job and the fanned-out
list for a batch job). -/
structure Job where
  id : ℕ
  kind : JobKind
  symbols : List String
  model_type : String
  horizon : ℕ
  status : JobStatus
  result : Option JobResult
  error : Option String
  deriving DecidableEq

/-- Modelled from the spec: the request payload from which `create` builds a
Job (§4.4). -/
structure JobSpec where
  kind : JobKind
  symbols : List String
  model_type : String
  horizon : ℕ
  deriving DecidableEq

/-- Whether a job is pending. -/
def isPending (j : Job) : Bool :=
  j.status == JobStatus.pending

/-- The number of pending jobs in a job list. -/
def pendingCount (l : List Job) : ℕ :=
  l.countP isPending

/-- Modelled from the spec: `claim_next` (§4.4) — atomically selects the first
pending job, transitions it to `running`, and returns it; because the spec
requires the whole operation to be a single atomic compare-and-swap, a set of
concurrent calls is embedded as a sequence of these atomic steps. -/
def claim_next : List Job → Option Job × List Job
  | [] => (none, [])
  | j :: rest =>
      if j.status = JobStatus.pending then
        let claimed := { j with status := JobStatus.running }
        (some claimed, claimed :: rest)
      else
        let p := claim_next rest
        (p.1, j :: p.2)

/-- Modelled from the spec: N concurrent callers of `claim_next` (§5) — each
call is atomic, so any interleaving is one of these serializations; the list
collects what each caller received. -/
def claimN : ℕ → List Job → List (Option Job) × List Job
  | 0, s => ([], s)
  | n + 1, s =>
      let p := claim_next s
      let q := claimN n p.2
      (p.1 :: q.1, q.2)

/-- Modelled from the spec: the JobStore (§4.4) — the job records plus the id
counter that makes `create` allocate unique ids. -/
structure Store where
  jobs : List Job
  nextId : ℕ
  deriving DecidableEq

/-- Modelled from the spec: the JobStore error taxonomy (§7). -/
inductive StoreError
  | invalidTransition
  | resultNotReady
  | jobNotFound
  deriving DecidableEq

/-- Modelled from the spec: `create(job_spec) -> Job (status=pending)` (§4.4). -/
def create (spec : JobSpec) (s : Store) : Job × Store :=
  let j : Job :=
    { id := s.nextId, kind := spec.kind, symbols := spec.symbols
      model_type := spec.model_type, horizon := spec.horizon
      status := JobStatus.pending, result := none, error := none }
  (j, { jobs := s.jobs ++ [j], nextId := s.nextId + 1 })

/-- Modelled from the spec: the store-level claim operation wrapping
`claim_next` (§4.4). -/
def claim (s : Store) : Option Job × Store :=
  let p := claim_next s.jobs
  (p.1, { s with jobs := p.2 })

/-- Modelled from the spec: `complete(id, result)` (§4.4) — transitions
`running → completed` recording the result, and fails with
`InvalidTransitionError` (store unchanged) if the job is not running. -/
def complete (s : Store) (id : ℕ) (res : JobResult) : Except StoreError Unit × Store :=
  match s.jobs.find? (fun k => k.id == id) with
  | none => (Except.error StoreError.jobNotFound, s)
  | some j =>
      if j.status = JobStatus.running then
        (Except.ok (),
         { s with jobs := s.jobs.map (fun k =>
             if k.id == id then
               { k with status := JobStatus.completed, result := some res, error := none }
             else k) })
      else
        (Except.error StoreError.invalidTransition, s)

/-- Modelled from the spec: `fail(id, error)` (§4.4) — transitions
`running → failed` recording the error (a failed Job has error set and no
result, §3), and fails with `InvalidTransitionError` (store unchanged) if the
job is not running. -/
def fail (s : Store) (id : ℕ) (err : String) : Except StoreError Unit × Store :=
  match s.jobs.find? (fun k => k.id == id) with
  | none => (Except.error StoreError.jobNotFound, s)
  | some j =>
      if j.status = JobStatus.running then
        (Except.ok (),
         { s with jobs := s.jobs.map (fun k =>
             if k.id == id then
               { k with status := JobStatus.failed, result := none, error := some err }
             else k) })
      else
        (Except.error StoreError.invalidTransition, s)

/-- Modelled from the spec: the read-only `get(id)` (§4.4). -/
def get (s : Store) (id : ℕ) : Except StoreError Job :=
  match s.jobs.find? (fun k => k.id == id) with
  | some j => Except.ok j
  | none => Except.error StoreError.jobNotFound

/-- Modelled from the spec: `get_status(job_id) -> {status, error?}` (§6). -/
def get_status (s : Store) (id : ℕ) : Except StoreError (JobStatus × Option String) :=
  match s.jobs.find? (fun k => k.id == id) with
  | some j => Except.ok (j.status, j.error)
  | none => Except.error StoreError.jobNotFound

/-- Modelled from the spec: the read-only `get_result(id)` (§4.4) — fails with
`ResultNotReadyError` if status ≠ completed. -/
def get_result (s : Store) (id : ℕ) : Except StoreError JobResult :=
  match s.jobs.find? (fun k => k.id == id) with
  | none => Except.error StoreError.jobNotFound
  | some j =>
      if j.status = JobStatus.completed then
        match j.result with
        | some r => Except.ok r
        | none => Except.error StoreError.resultNotReady
      else
        Except.error StoreError.resultNotReady

/-- Modelled from the spec: the reachable JobStore states — the empty store
followed by any sequence of the §4.4 operations. -/
inductive Reachable : Store → Prop
  | empty : Reachable ⟨[], 0⟩
  | create (spec : JobSpec) {s : Store} : Reachable s → Reachable (create spec s).2
  | claim {s : Store} : Reachable s → Reachable (claim s).2
  | complete (id : ℕ) (res : JobResult) {s : Store} :
      Reachable s → Reachable (complete s id res).2
  | fail (id : ℕ) (err : String) {s : Store} :
      Reachable s → Reachable (fail s id err).2

/-- Well-formedness of a store: distinct job ids, all below the id counter. -/
def WFStore (s : Store) : Prop :=
  (s.jobs.map Job.id).Nodup ∧ ∀ j ∈ s.jobs, j.id < s.nextId

/-- The §3 invariant on one job: result exists iff completed, and a failed job
has error set and no result. -/
def ResultInv (s : Store) : Prop :=
  ∀ j ∈ s.jobs,
    (j.result.isSome ↔ j.status = JobStatus.completed) ∧
    (j.status = JobStatus.failed → j.error.isSome ∧ j.result = none)

/-- Modelled from the spec: `submit_forecast(symbol, horizon, model_type) ->
job_id` (§6) — creates a pending job and returns immediately. -/
def submit_forecast (symbol : String) (horizon : ℕ) (model_type : String) (s : Store) :
    ℕ × Store :=
  let p := create ⟨JobKind.forecast, [symbol], model_type, horizon⟩ s
  (p.1.id, p.2)

/-- Modelled from the spec: `submit_batch(symbols[], horizon, model_type) ->
job_id` (§6). -/
def submit_batch (symbols : List String) (horizon : ℕ) (model_type : String) (s : Store) :
    ℕ × Store :=
  let p := create ⟨JobKind.batchForecast, symbols, model_type, horizon⟩ s
  (p.1.id, p.2)

/-- Modelled from the spec: `submit_training(symbol, model_type) -> job_id`
(§6). -/
def submit_training (symbol : String) (model_type : String) (s : Store) : ℕ × Store :=
  let p := create ⟨JobKind.train, [symbol], model_type, 0⟩ s
  (p.1.id, p.2)

/-- Modelled from the spec: a worker's execution of one job (§4.5); the
`Except` models an error raised inside the execution. -/
def Executor := Job → Except String JobResult

/-- Modelled from the spec: the worker boundary (§7) — the outcome of
executing a claimed job is caught and recorded on the Job via `complete` or
`fail`, never re-raised. -/
def run_claimed (exec : Executor) (s : Store) (j : Job) : Store :=
  match exec j with
  | Except.ok r => (complete s j.id r).2
  | Except.error e => (fail s j.id e).2

/-- Modelled from the spec: one worker iteration (§4.5) — claim the next
pending job and, if one was claimed, execute and record its outcome. -/
def worker_step (exec : Executor) (s : Store) : Store :=
  match claim s with
  | (none, s1) => s1
  | (some j, s1) => run_claimed exec s1 j

end Engine

namespace Ensemble

/-- Modelled from the spec: one model adapter's contribution to the
EnsembleCombiner (§4.2) — its historical validation error and the outcome of
its `predict` call (which may have failed). -/
structure AdapterOutput where
  model_type : String
  validationError : ℚ
  predicted : Except String (List ℚ)

/-- Modelled from the spec: the combiner's error (§4.2) — raised only when
zero adapters succeeded. -/
inductive CombinerError
  | allModelsFailed
  deriving DecidableEq

/-- The adapters whose `predict` succeeded; failed adapters are excluded
(§4.2). -/
def succeeded (inputs : List AdapterOutput) : List AdapterOutput :=
  inputs.filter (fun m => m.predicted.isOk)

/-- Modelled from the spec: the default raw weight of a model — the inverse of
its historical validation error (§4.2). -/
def rawWeight (m : AdapterOutput) : ℚ :=
  1 / m.validationError

/-- Modelled from the spec: the normalized ensemble weights (§4.2) — inverse
validation errors of the SUCCEEDED adapters, renormalized to sum to 1. -/
def ensemble_weights (inputs : List AdapterOutput) : List ℚ :=
  let raw := (succeeded inputs).map rawWeight
  raw.map (fun w => w / raw.sum)

/-- The predictions of the succeeded adapters (empty list when the stored
outcome is an error, which cannot happen for members of `succeeded`). -/
def okPredictions (inputs : List AdapterOutput) : List (List ℚ) :=
  (succeeded inputs).map (fun m => m.predicted.toOption.getD [])

/-- One combined point estimate: the weighted average of the succeeded
adapters' step-`t` estimates (§4.2). -/
def weightedPoint (ws : List ℚ) (preds : List (List ℚ)) (t : ℕ) : ℚ :=
  ((ws.zip preds).map (fun p => p.1 * p.2.getD t 0)).sum

/-- The combiner's output: the weights it used and the combined point
estimates. -/
structure Combined where
  weights : List ℚ
  points : List ℚ
  deriving DecidableEq

/-- Modelled from the spec: the EnsembleCombiner (§4.2) — excludes failed
adapters, renormalizes the remaining inverse-error weights, combines point
estimates as their weighted average, and fails with `AllModelsFailedError`
only when zero adapters succeeded. -/
def combine (horizon : ℕ) (inputs : List AdapterOutput) : Except CombinerError Combined :=
  if (succeeded inputs).isEmpty then
    Except.error CombinerError.allModelsFailed
  else
    let ws := ensemble_weights inputs
    Except.ok
      { weights := ws
        points := (List.range horizon).map (weightedPoint ws (okPredictions inputs)) }

end Ensemble

namespace Registry

/-- Modelled from the spec: a stored ModelArtifact (§3) — versioned by the
registry, immutable after creation. -/
structure ModelArtifact where
  model_type : String
  symbol : String
  version : ℕ
  params : String
  mape : ℚ
  deriving DecidableEq

/-- Modelled from the spec: what `save` receives — an artifact's content
before the registry assigns its version. -/
structure ArtifactData where
  model_type : String
  symbol : String
  params : String
  mape : ℚ
  deriving DecidableEq

/-- Modelled from the spec: the ModelRegistry (§4.3) — stored artifacts plus
the monotonic counter from which versions are derived. -/
structure RegistryState where
  artifacts : List ModelArtifact
  clock : ℕ
  deriving DecidableEq

/-- Modelled from the spec: the registry error of §4.3. -/
inductive RegistryError
  | modelNotFound
  deriving DecidableEq

/-- Modelled from the spec: `save(artifact) -> version_id` (§4.3) — never
overwrites, always appends a new version (derived from the monotonic clock). -/
def save (a : ArtifactData) (r : RegistryState) : ℕ × RegistryState :=
  let art : ModelArtifact :=
    { model_type := a.model_type, symbol := a.symbol, version := r.clock
      params := a.params, mape := a.mape }
  (r.clock, { artifacts := r.artifacts ++ [art], clock := r.clock + 1 })

/-- Whether an artifact matches a (model_type, symbol) query. -/
def matchesQuery (mt sym : String) (art : ModelArtifact) : Bool :=
  art.model_type == mt && art.symbol == sym

/-- Fold step selecting the artifact with the greatest version ("latest"). -/
def best : Option ModelArtifact → ModelArtifact → Option ModelArtifact
  | none, a => some a
  | some b, a => if b.version < a.version then some a else some b

/-- Modelled from the spec: `load(model_type, symbol, version?)` (§4.3) —
returns the requested version, or the latest (greatest version) when the
version is omitted; fails with `ModelNotFoundError` when nothing matches. -/
def load (mt sym : String) (version? : Option ℕ) (r : RegistryState) :
    Except RegistryError ModelArtifact :=
  let matching := r.artifacts.filter (matchesQuery mt sym)
  match version? with
  | some v =>
      match matching.find? (fun a => a.version == v) with
      | some a => Except.ok a
      | none => Except.error RegistryError.modelNotFound
  | none =>
      match matching.foldl best none with
      | some a => Except.ok a
      | none => Except.error RegistryError.modelNotFound

end Registry

namespace Adapter

/-- Modelled from the spec: one observation of the historical OHLCV series
(§6), reduced to the fields the adapter uses. -/
structure PricePoint where
  date : ℕ
  close : ℚ
  deriving DecidableEq

/-- Modelled from the spec: the adapter error taxonomy relevant to `fit`
(§4.1). -/
inductive AdapterError
  | insufficientData
  deriving DecidableEq

/-- Modelled from the spec: the minimum window of §4.1 — the input series must
have at least 60 observations. -/
def min_window : ℕ := 60

/-- Modelled from the spec: a fitted model's state — the last observed date
and close, from which the predictor extrapolates. -/
structure FittedModel where
  lastDate : ℕ
  lastClose : ℚ
  deriving DecidableEq

/-- Modelled from the spec: `fit(historical_series, config)` (§4.1) — fails
with `InsufficientDataError` when the series is shorter than the minimum
window. -/
def fit (series : List PricePoint) : Except AdapterError FittedModel :=
  if series.length < min_window then
    Except.error AdapterError.insufficientData
  else
    match series.getLast? with
    | some p => Except.ok { lastDate := p.date, lastClose := p.close }
    | none => Except.error AdapterError.insufficientData

/-- Modelled from the spec: `predict(artifact, horizon)` (§4.1 and §8) —
returns exactly `horizon` Predictions dated on consecutive days after the last
observation. -/
def predict (m : FittedModel) (horizon : ℕ) : List Engine.Prediction :=
  (List.range horizon).map (fun i =>
    { date := m.lastDate + i + 1
      point_estimate := m.lastClose
      confidence_lower := m.lastClose * (95 / 100)
      confidence_upper := m.lastClose * (105 / 100)
      probability_up := 1 / 2 })

end Adapter

namespace Demo

/-- A concrete job list with two pending jobs (ids 0 and 2) and one completed
job (id 1). -/
def jobsC2 : List Engine.Job :=
  [ { id := 0, kind := Engine.JobKind.forecast, symbols := ["AAPL"], model_type := "ensemble"
    , horizon := 7, status := Engine.JobStatus.pending, result := none, error := none }
  , { id := 1, kind := Engine.JobKind.train, symbols := ["GOOGL"], model_type := "xgboost"
    , horizon := 0, status := Engine.JobStatus.completed
    , result := some ⟨[]⟩, error := none }
  , { id := 2, kind := Engine.JobKind.forecast, symbols := ["MSFT"], model_type := "lstm"
    , horizon := 30, status := Engine.JobStatus.pending, result := none, error := none } ]

/-- A concrete forecast job spec. -/
def specA : Engine.JobSpec :=
  ⟨Engine.JobKind.forecast, ["AAPL"], "ensemble", 7⟩

/-- A concrete job result with one prediction. -/
def resultA : Engine.JobResult :=
  ⟨[⟨1, 185, 180, 190, 1 / 2⟩]⟩

/-- A concrete store reached by create, claim, complete from the empty
store. -/
def storeC3 : Engine.Store :=
  (Engine.complete (Engine.claim (Engine.create specA ⟨[], 0⟩).2).2 0 resultA).2

/-- A concrete completed (terminal) job. -/
def jobDoneC4 : Engine.Job :=
  { id := 0, kind := Engine.JobKind.forecast, symbols := ["AAPL"], model_type := "ensemble"
  , horizon := 7, status := Engine.JobStatus.completed, result := some resultA, error := none }

/-- A concrete store holding one completed job. -/
def storeC4 : Engine.Store := ⟨[jobDoneC4], 1⟩

/-- A concrete pending job. -/
def jobPendingC5 : Engine.Job :=
  { id := 0, kind := Engine.JobKind.forecast, symbols := ["AAPL"], model_type := "ensemble"
  , horizon := 7, status := Engine.JobStatus.pending, result := none, error := none }

/-- A concrete store holding one pending job. -/
def storeC5 : Engine.Store := ⟨[jobPendingC5], 1⟩

/-- An executor whose execution always raises. -/
def execFailC5 : Engine.Executor :=
  fun _ => Except.error "ArtifactCorruptError"

/-- Concrete adapter outputs: two succeeded, one failed. -/
def inputsC6 : List Ensemble.AdapterOutput :=
  [ ⟨"xgboost", 2, Except.ok [101, 102, 103]⟩
  , ⟨"lstm", 4, Except.ok [99, 100, 101]⟩
  , ⟨"tft", 5, Except.error "InsufficientDataError"⟩ ]

/-- A first training artifact for (xgboost, AAPL). -/
def artA : Registry.ArtifactData := ⟨"xgboost", "AAPL", "params-v1", 3 / 100⟩

/-- A retrained artifact for the same (xgboost, AAPL). -/
def artB : Registry.ArtifactData := ⟨"xgboost", "AAPL", "params-v2", 2 / 100⟩

/-- A concrete historical series of exactly the minimum window length. -/
def seriesC8 : List Adapter.PricePoint :=
  (List.range 60).map (fun i => ⟨i, 100⟩)

end Demo

section FoldLemmas

/-- A fold over events whose update function keeps an observation `g`
unchanged keeps `g` of the folded state unchanged. -/
theorem foldl_preserves_obs {α β γ : Type} (g : α → γ) (f : α → β → α)
    (h : ∀ a b, g (f a b) = g a) :
    ∀ (l : List β) (a : α), g (l.foldl f a) = g a := by
  intro l
  induction l with
  | nil => intro a; rfl
  | cons x xs ih =>
      intro a
      rw [List.foldl_cons, ih, h]

end FoldLemmas

namespace Engine

theorem pendingCount_cons (j : Job) (l : List Job) :
    pendingCount (j :: l) = pendingCount l + (if j.status = JobStatus.pending then 1 else 0) := by
  simp [pendingCount, List.countP_cons, isPending]

theorem claim_next_ids (l : List Job) : (claim_next l).2.map Job.id = l.map Job.id := by
  induction l with
  | nil => rfl
  | cons j rest ih =>
      by_cases h : j.status = JobStatus.pending
      · simp [claim_next, h]
      · simp [claim_next, h, ih]

theorem claim_next_none {l t : List Job} (h : claim_next l = (none, t)) :
    t = l ∧ pendingCount l = 0 := by
  induction l generalizing t with
  | nil =>
      simp only [claim_next, Prod.mk.injEq] at h
      exact ⟨h.2.symm, rfl⟩
  | cons j rest ih =>
      by_cases hp : j.status = JobStatus.pending
      · simp [claim_next, hp] at h
      · simp only [claim_next, hp, if_false, Prod.mk.injEq] at h
        obtain ⟨h1, h2⟩ := h
        obtain ⟨ht, hc⟩ := ih (Prod.ext h1 rfl)
        subst h2
        refine ⟨congrArg (List.cons j) ht, ?_⟩
        rw [pendingCount_cons, hc, if_neg hp]

theorem claim_next_some {l t : List Job} {j : Job} (h : claim_next l = (some j, t)) :
    j.status = JobStatus.running ∧
    (∃ j0 ∈ l, j0.status = JobStatus.pending ∧ j = { j0 with status := JobStatus.running }) ∧
    pendingCount t + 1 = pendingCount l ∧
    j ∈ t ∧
    (∀ k ∈ l, k.status ≠ JobStatus.pending → k ∈ t) ∧
    (∀ k ∈ t, k ∈ l ∨ k = j) := by
  induction l generalizing t with
  | nil => simp [claim_next] at h
  | cons a rest ih =>
      by_cases hp : a.status = JobStatus.pending
      · simp only [claim_next, hp, if_true, Prod.mk.injEq, Option.some.injEq] at h
        obtain ⟨hj, ht⟩ := h
        subst hj
        subst ht
        refine ⟨rfl, ⟨a, List.mem_cons_self a rest, hp, rfl⟩, ?_, List.mem_cons_self _ _,
          ?_, ?_⟩
        · rw [pendingCount_cons, pendingCount_cons, if_pos hp]
          simp
        · intro k hk hknp
          rcases List.mem_cons.mp hk with hk | hk
          · exact absurd (hk ▸ hp) hknp
          · exact List.mem_cons_of_mem _ hk
        · intro k hk
          rcases List.mem_cons.mp hk with hk | hk
          · exact Or.inr hk
          · exact Or.inl (List.mem_cons_of_mem _ hk)
      · simp only [claim_next, hp, if_false, Prod.mk.injEq] at h
        obtain ⟨h1, h2⟩ := h
        obtain ⟨hst, hex, hpc, hmem, hpres, hsub⟩ := ih (Prod.ext h1 rfl)
        subst h2
        refine ⟨hst, ?_, ?_, List.mem_cons_of_mem _ hmem, ?_, ?_⟩
        · obtain ⟨j0, hj0, hj0p, hj0e⟩ := hex
          exact ⟨j0, List.mem_cons_of_mem _ hj0, hj0p, hj0e⟩
        · rw [pendingCount_cons, pendingCount_cons, if_neg hp]
          simpa using hpc
        · intro k hk hknp
          rcases List.mem_cons.mp hk with hk | hk
          · exact hk ▸ List.mem_cons_self _ _
          · exact List.mem_cons_of_mem _ (hpres k hk hknp)
        · intro k hk
          rcases List.mem_cons.mp hk with hk | hk
          · exact Or.inl (hk ▸ List.mem_cons_self _ _)
          · rcases hsub k hk with hk' | hk'
            · exact Or.inl (List.mem_cons_of_mem _ hk')
            · exact Or.inr hk'

theorem claim_next_preserves_nonpending {l : List Job} {k : Job}
    (hk : k ∈ l) (hknp : k.status ≠ JobStatus.pending) : k ∈ (claim_next l).2 := by
  cases hcn : claim_next l with
  | mk r t =>
      cases r with
      | none => exact ((claim_next_none hcn).1).symm ▸ hk
      | some j => exact (claim_next_some hcn).2.2.2.2.1 k hk hknp

theorem claimN_preserves_nonpending (n : ℕ) :
    ∀ (l : List Job) (k : Job), k ∈ l → k.status ≠ JobStatus.pending →
      k ∈ (claimN n l).2 := by
  induction n with
  | zero => intro l k hk _; exact hk
  | succ n ih =>
      intro l k hk hknp
      have h1 : k ∈ (claim_next l).2 := claim_next_preserves_nonpending hk hknp
      show k ∈ (claimN n (claim_next l).2).2
      exact ih _ k h1 hknp

theorem claimN_ids (n : ℕ) : ∀ l : List Job, (claimN n l).2.map Job.id = l.map Job.id := by
  induction n with
  | zero => intro l; rfl
  | succ n ih =>
      intro l
      show (claimN n (claim_next l).2).2.map Job.id = l.map Job.id
      rw [ih, claim_next_ids]

theorem claimN_results_length (n : ℕ) : ∀ l : List Job, (claimN n l).1.length = n := by
  induction n with
  | zero => intro l; rfl
  | succ n ih =>
      intro l
      show ((claim_next l).1 :: (claimN n (claim_next l).2).1).length = n + 1
      rw [List.length_cons, ih]

theorem claimN_spec (n : ℕ) :
    ∀ l : List Job, (l.map Job.id).Nodup → pendingCount l ≤ n →
    ((claimN n l).1.filterMap (fun x => x)).length = pendingCount l ∧
    (((claimN n l).1.filterMap (fun x => x)).map Job.id).Nodup ∧
    (claimN n l).1.countP (fun x => x.isNone) = n - pendingCount l ∧
    (∀ j ∈ (claimN n l).1.filterMap (fun x => x),
      j.status = JobStatus.running ∧
      (∃ j0 ∈ l, j0.id = j.id ∧ j0.status = JobStatus.pending) ∧
      j ∈ (claimN n l).2) := by
  induction n with
  | zero =>
      intro l _ hle
      have h0 : pendingCount l = 0 := Nat.le_zero.mp hle
      refine ⟨by simp [claimN, h0], by simp [claimN], by simp [claimN, h0], ?_⟩
      intro j hj
      simp [claimN] at hj
  | succ n ih =>
      intro l hnd hle
      cases hcn : claim_next l with
      | mk r t =>
          have hres : (claimN (n + 1) l).1 = r :: (claimN n t).1 := by
            show ((claim_next l).1 :: (claimN n (claim_next l).2).1) = _
            rw [hcn]
          have hfin : (claimN (n + 1) l).2 = (claimN n t).2 := by
            show (claimN n (claim_next l).2).2 = _
            rw [hcn]
          cases r with
          | none =>
              obtain ⟨htl, hpc0⟩ := claim_next_none hcn
              subst htl
              obtain ⟨ih1, ih2, ih3, ih4⟩ := ih t hnd (hpc0 ▸ Nat.zero_le n)
              rw [hres, hfin]
              have hfm : (none :: (claimN n t).1).filterMap (fun x : Option Job => x) =
                  (claimN n t).1.filterMap (fun x => x) := by
                rw [List.filterMap_cons_none]
                rfl
              refine ⟨?_, ?_, ?_, ?_⟩
              · rw [hfm]; exact ih1
              · rw [hfm]; exact ih2
              · rw [List.countP_cons]
                have hite : (if (fun x : Option Job => x.isNone) none = true then 1 else 0) = 1 :=
                  rfl
                rw [hite, ih3, hpc0]
                omega
              · intro j hj
                rw [hfm] at hj
                exact ih4 j hj
          | some j =>
              obtain ⟨hst, hex, hpc, hmem, hpres, hsub⟩ := claim_next_some hcn
              have hndt : (t.map Job.id).Nodup := by
                have hids := claim_next_ids l
                rw [hcn] at hids
                rw [hids]
                exact hnd
              have hlet : pendingCount t ≤ n := by omega
              obtain ⟨ih1, ih2, ih3, ih4⟩ := ih t hndt hlet
              rw [hres, hfin]
              have hrunning : j.status ≠ JobStatus.pending := by
                rw [hst]; intro hcon; exact JobStatus.noConfusion hcon
              have hfm : (some j :: (claimN n t).1).filterMap (fun x : Option Job => x) =
                  j :: (claimN n t).1.filterMap (fun x => x) := by
                rw [List.filterMap_cons_some]
                rfl
              refine ⟨?_, ?_, ?_, ?_⟩
              · rw [hfm, List.length_cons]
                omega
              · rw [hfm, List.map_cons, List.nodup_cons]
                refine ⟨?_, ih2⟩
                intro hcon
                obtain ⟨jc, hjc, hjcid⟩ := List.mem_map.mp hcon
                obtain ⟨-, ⟨j0, hj0t, hj0id, hj0p⟩, -⟩ := ih4 jc hjc
                have hj0j : j0 ≠ j := by
                  intro hcon2
                  rw [hcon2, hst] at hj0p
                  exact JobStatus.noConfusion hj0p
                exact hj0j (List.inj_on_of_nodup_map hndt hj0t hmem (by rw [hj0id, hjcid]))
              · rw [List.countP_cons]
                have hite :
                    (if (fun x : Option Job => x.isNone) (some j) = true then 1 else 0) = 0 :=
                  rfl
                rw [hite, Nat.add_zero, ih3]
                omega
              · intro jc hjc
                rw [hfm] at hjc
                rcases List.mem_cons.mp hjc with hjc | hjc
                · subst hjc
                  refine ⟨hst, ?_, ?_⟩
                  · obtain ⟨j0, hj0l, hj0p, hj0e⟩ := hex
                    refine ⟨j0, hj0l, ?_, hj0p⟩
                    rw [hj0e]
                  · exact claimN_preserves_nonpending n t jc hmem hrunning
                · obtain ⟨hc1, ⟨j0, hj0t, hj0id, hj0p⟩, hc3⟩ := ih4 jc hjc
                  refine ⟨hc1, ?_, hc3⟩
                  rcases hsub j0 hj0t with hj0l | hj0l
                  · exact ⟨j0, hj0l, hj0id, hj0p⟩
                  · exfalso
                    rw [hj0l, hst] at hj0p
                    exact JobStatus.noConfusion hj0p

theorem find?_map_congr {u : Job → Job} {p : Job → Bool} (h : ∀ k, p (u k) = p k) :
    ∀ l : List Job, (l.map u).find? p = (l.find? p).map u := by
  intro l
  induction l with
  | nil => rfl
  | cons a rest ih =>
      by_cases hpa : p a = true
      · rw [List.map_cons, List.find?_cons_of_pos _ ((h a).trans hpa),
          List.find?_cons_of_pos _ hpa]
        rfl
      · have hpa' : ¬ p a = true := hpa
        rw [List.map_cons, List.find?_cons_of_neg _ (by rw [h a]; exact hpa'),
          List.find?_cons_of_neg _ hpa', ih]

theorem find?_id_of_mem_nodup {l : List Job} {j : Job}
    (hnd : (l.map Job.id).Nodup) (hj : j ∈ l) :
    l.find? (fun k => k.id == j.id) = some j := by
  induction l with
  | nil => exact absurd hj (List.not_mem_nil j)
  | cons a rest ih =>
      by_cases hpa : (a.id == j.id) = true
      · have haj : a = j :=
          List.inj_on_of_nodup_map hnd (List.mem_cons_self a rest) hj (beq_iff_eq.mp hpa)
        have hpa2 : (fun k : Job => k.id == j.id) a = true := hpa
        rw [@List.find?_cons_of_pos Job (fun k => k.id == j.id) a rest hpa2, haj]
      · have hjrest : j ∈ rest := by
          rcases List.mem_cons.mp hj with hj' | hj'
          · exact absurd (by rw [hj']; exact beq_self_eq_true a.id) hpa
          · exact hj'
        have hndr : (rest.map Job.id).Nodup := (List.nodup_cons.mp hnd).2
        have hpa2 : ¬ (fun k : Job => k.id == j.id) a = true := hpa
        rw [@List.find?_cons_of_neg Job (fun k => k.id == j.id) a rest hpa2, ih hndr hjrest]

theorem complete_ok_shape {s : Store} {id : ℕ} {res : JobResult}
    (h : (complete s id res).1 = Except.ok ()) :
    ∃ j, s.jobs.find? (fun k => k.id == id) = some j ∧ j.status = JobStatus.running ∧
      (complete s id res).2 =
        { s with jobs := s.jobs.map (fun k =>
            if k.id == id then
              { k with status := JobStatus.completed, result := some res, error := none }
            else k) } := by
  cases hf : s.jobs.find? (fun k => k.id == id) with
  | none =>
      exfalso
      have herr : (complete s id res).1 = Except.error StoreError.jobNotFound := by
        unfold complete
        rw [hf]
      rw [herr] at h
      exact Except.noConfusion h
  | some j =>
      by_cases hr : j.status = JobStatus.running
      · refine ⟨j, rfl, hr, ?_⟩
        unfold complete
        rw [hf]
        simp only [if_pos hr]
      · exfalso
        have herr : (complete s id res).1 = Except.error StoreError.invalidTransition := by
          unfold complete
          rw [hf]
          simp only [if_neg hr]
        rw [herr] at h
        exact Except.noConfusion h

theorem reachable_invariant {s : Store} (h : Reachable s) : WFStore s ∧ ResultInv s := by
  induction h with
  | empty =>
      refine ⟨⟨List.nodup_nil, ?_⟩, ?_⟩
      · intro j hj; exact absurd hj (List.not_mem_nil j)
      · intro j hj; exact absurd hj (List.not_mem_nil j)
  | @create spec s hs ih =>
      obtain ⟨⟨hnd, hlt⟩, hinv⟩ := ih
      refine ⟨⟨?_, ?_⟩, ?_⟩
      · show ((s.jobs ++ [_]).map Job.id).Nodup
        rw [List.map_append, List.nodup_append]
        refine ⟨hnd, List.nodup_singleton _, ?_⟩
        intro a ha hb
        simp only [List.map_cons, List.map_nil, List.mem_singleton] at hb
        obtain ⟨k, hk, hka⟩ := List.mem_map.mp ha
        have hklt := hlt k hk
        rw [hka, hb] at hklt
        exact absurd hklt (lt_irrefl _)
      · intro j hj
        rcases List.mem_append.mp hj with hj' | hj'
        · exact Nat.lt_succ_of_lt (hlt j hj')
        · rw [List.mem_singleton.mp hj']
          exact Nat.lt_succ_self _
      · intro j hj
        rcases List.mem_append.mp hj with hj' | hj'
        · exact hinv j hj'
        · rw [List.mem_singleton.mp hj']
          refine ⟨⟨fun hc => Bool.noConfusion hc, fun hc => JobStatus.noConfusion hc⟩,
            fun hc => JobStatus.noConfusion hc⟩
  | @claim s hs ih =>
      obtain ⟨⟨hnd, hlt⟩, hinv⟩ := ih
      cases hcn : claim_next s.jobs with
      | mk r t =>
          have hjobs : (claim s).2.jobs = t := by
            show (claim_next s.jobs).2 = t
            rw [hcn]
          have hids : t.map Job.id = s.jobs.map Job.id := by
            have := claim_next_ids s.jobs
            rw [hcn] at this
            exact this
          cases r with
          | none =>
              obtain ⟨htl, -⟩ := claim_next_none hcn
              subst htl
              exact ⟨⟨hjobs ▸ hnd, fun j hj => hlt j (hjobs ▸ hj)⟩,
                fun j hj => hinv j (hjobs ▸ hj)⟩
          | some j =>
              obtain ⟨hst, hex, -, -, -, hsub⟩ := claim_next_some hcn
              obtain ⟨j0, hj0, hj0p, hj0e⟩ := hex
              refine ⟨⟨?_, ?_⟩, ?_⟩
              · rw [hjobs, hids]; exact hnd
              · intro k hk
                rcases hsub k (hjobs ▸ hk) with hk' | hk'
                · exact hlt k hk'
                · rw [hk', hj0e]
                  exact hlt j0 hj0
              · intro k hk
                rcases hsub k (hjobs ▸ hk) with hk' | hk'
                · exact hinv k hk'
                · have hres0 : ¬ j0.result.isSome := by
                    intro hc
                    have := ((hinv j0 hj0).1).mp hc
                    rw [hj0p] at this
                    exact JobStatus.noConfusion this
                  rw [hk', hj0e]
                  refine ⟨⟨fun hc => absurd hc hres0, fun hc => JobStatus.noConfusion hc⟩,
                    fun hc => JobStatus.noConfusion hc⟩
  | @complete id res s hs ih =>
      obtain ⟨⟨hnd, hlt⟩, hinv⟩ := ih
      cases hf : s.jobs.find? (fun k => k.id == id) with
      | none =>
          have hsame : (complete s id res).2 = s := by
            unfold complete
            rw [hf]
          rw [hsame]
          exact ⟨⟨hnd, hlt⟩, hinv⟩
      | some j =>
          by_cases hr : j.status = JobStatus.running
          · have hsame : (complete s id res).2 =
                { s with jobs := s.jobs.map (fun k =>
                    if k.id == id then
                      { k with status := JobStatus.completed, result := some res, error := none }
                    else k) } := by
              unfold complete
              rw [hf]
              simp only [if_pos hr]
            rw [hsame]
            have hidpres : ∀ k : Job,
                (if k.id == id then
                  { k with status := JobStatus.completed, result := some res, error := none }
                 else k).id = k.id := by
              intro k
              by_cases hc : (k.id == id) = true
              · rw [if_pos hc]
              · rw [if_neg hc]
            refine ⟨⟨?_, ?_⟩, ?_⟩
            · rw [List.map_map]
              have : (Job.id ∘ fun k =>
                  if k.id == id then
                    { k with status := JobStatus.completed, result := some res, error := none }
                  else k) = Job.id := funext hidpres
              rw [this]
              exact hnd
            · intro k hk
              obtain ⟨k0, hk0, hke⟩ := List.mem_map.mp hk
              rw [← hke, hidpres k0]
              exact hlt k0 hk0
            · intro k hk
              obtain ⟨k0, hk0, hke⟩ := List.mem_map.mp hk
              subst hke
              by_cases hc : (k0.id == id) = true
              · rw [if_pos hc]
                exact ⟨⟨fun _ => rfl, fun _ => rfl⟩, fun hcc => JobStatus.noConfusion hcc⟩
              · rw [if_neg hc]
                exact hinv k0 hk0
          · have hsame : (complete s id res).2 = s := by
              unfold complete
              rw [hf]
              simp only [if_neg hr]
            rw [hsame]
            exact ⟨⟨hnd, hlt⟩, hinv⟩
  | @fail id err s hs ih =>
      obtain ⟨⟨hnd, hlt⟩, hinv⟩ := ih
      cases hf : s.jobs.find? (fun k => k.id == id) with
      | none =>
          have hsame : (fail s id err).2 = s := by
            unfold fail
            rw [hf]
          rw [hsame]
          exact ⟨⟨hnd, hlt⟩, hinv⟩
      | some j =>
          by_cases hr : j.status = JobStatus.running
          · have hsame : (fail s id err).2 =
                { s with jobs := s.jobs.map (fun k =>
                    if k.id == id then
                      { k with status := JobStatus.failed, result := none, error := some err }
                    else k) } := by
              unfold fail
              rw [hf]
              simp only [if_pos hr]
            rw [hsame]
            have hidpres : ∀ k : Job,
                (if k.id == id then
                  { k with status := JobStatus.failed, result := none, error := some err }
                 else k).id = k.id := by
              intro k
              by_cases hc : (k.id == id) = true
              · rw [if_pos hc]
              · rw [if_neg hc]
            refine ⟨⟨?_, ?_⟩, ?_⟩
            · rw [List.map_map]
              have : (Job.id ∘ fun k =>
                  if k.id == id then
                    { k with status := JobStatus.failed, result := none, error := some err }
                  else k) = Job.id := funext hidpres
              rw [this]
              exact hnd
            · intro k hk
              obtain ⟨k0, hk0, hke⟩ := List.mem_map.mp hk
              rw [← hke, hidpres k0]
              exact hlt k0 hk0
            · intro k hk
              obtain ⟨k0, hk0, hke⟩ := List.mem_map.mp hk
              subst hke
              by_cases hc : (k0.id == id) = true
              · rw [if_pos hc]
                refine ⟨⟨fun hcc => Bool.noConfusion hcc,
                  fun hcc => JobStatus.noConfusion hcc⟩, fun _ => ⟨rfl, rfl⟩⟩
              · rw [if_neg hc]
                exact hinv k0 hk0
          · have hsame : (fail s id err).2 = s := by
              unfold fail
              rw [hf]
              simp only [if_neg hr]
            rw [hsame]
            exact ⟨⟨hnd, hlt⟩, hinv⟩

end Engine

/-- C1: every numeric value displayed by the `Dashboard`, `Models` and
`Forecasts` components is a constant: after any sequence of UI events, each
component renders exactly the values determined by the hardcoded `useState`
literals — no input reaches them, and no computation in the source produces
them. -/
theorem c1_displayed_metrics_are_constants :
    (∀ evs : List UI.DashboardEvent,
      UI.dashboardRender (evs.foldl UI.dashboardUpdate UI.dashboardInit) =
        { totalForecasts := 1247
          activeModels := 8
          dataPoints := 45678
          accuracy := 87.3
          recentRows := [("AAPL", 185.42, 2.3), ("GOOGL", 142.18, -1.2),
                         ("MSFT", 378.95, 3.1), ("TSLA", 245.67, -0.8)]
          perfRows := [(85, 120), (87, 145), (89, 167), (86, 134), (88, 156), (87, 142)] }) ∧
    (∀ evs : List UI.ModelsEvent,
      UI.modelsRender (evs.foldl UI.modelsUpdate UI.modelsInit) =
        { activeCount := 2
          trainingCount := 1
          avgAccuracy := 1306 / 15
          rows := [("AAPL", 87.3), ("GOOGL", 84.7), ("MSFT", 89.2)] }) ∧
    (∀ evs : List UI.ForecastsEvent,
      UI.forecastsRender (evs.foldl UI.forecastsUpdate UI.forecastsInit) =
        [("AAPL", 185.42, 87.3), ("GOOGL", 142.18, 82.1), ("MSFT", 378.95, 89.7)]) := by
  refine ⟨fun evs => ?_, fun evs => ?_, fun evs => ?_⟩
  · have h : evs.foldl UI.dashboardUpdate UI.dashboardInit = UI.dashboardInit := by
      have := foldl_preserves_obs (fun s => s) UI.dashboardUpdate
        (fun a b => by cases b; rfl) evs UI.dashboardInit
      simpa using this
    rw [h]
    rfl
  · have h : evs.foldl UI.modelsUpdate UI.modelsInit = UI.modelsInit := by
      have := foldl_preserves_obs (fun s => s) UI.modelsUpdate
        (fun a b => by cases b <;> rfl) evs UI.modelsInit
      simpa using this
    rw [h]
    have hmk : UI.modelsRender UI.modelsInit =
        { activeCount := 2, trainingCount := 1,
          avgAccuracy := ((0 : ℚ) + 87.3 + 84.7 + 89.2) / ((3 : ℕ) : ℚ),
          rows := [("AAPL", 87.3), ("GOOGL", 84.7), ("MSFT", 89.2)] } := rfl
    rw [hmk]
    simp only [UI.ModelsDisplay.mk.injEq]
    norm_num
  · have h : (evs.foldl UI.forecastsUpdate UI.forecastsInit).forecasts =
        UI.forecastsInit.forecasts := by
      exact foldl_preserves_obs (fun s => s.forecasts) UI.forecastsUpdate
        (fun a b => by cases b <;> rfl) evs UI.forecastsInit
    unfold UI.forecastsRender
    rw [h]
    rfl

/-- C9 counterexample: a concrete `uploadData` call produces a fetch init
whose headers do NOT carry `Content-Type: application/json` — the top-level
`...options` spread replaces the merged headers with the explicit `headers: {}`. -/
theorem c9_upload_content_type_counterexample :
    ¬ ApiClient.objGet
        (ApiClient.requestFetchInit
          (some (ApiClient.uploadDataOptions "prices.csv" "AAPL" "custom"))).headers
        "Content-Type" = some "application/json" := by
  decide

/-- C9 (amended): every `uploadData` call is sent with an empty header map —
no `Content-Type` header at all — because the top-level `...options` spread in
`request` replaces the merged default headers with the explicit `headers: {}`,
so the browser IS left to set the multipart `Content-Type`, as the in-code
comment intends; a call that passes no `headers` key, such as
`createForecast`, does get the default `Content-Type: application/json`. -/
theorem c9_upload_headers_empty :
    (∀ file symbol source : String,
      (ApiClient.requestFetchInit
        (some (ApiClient.uploadDataOptions file symbol source))).headers = [] ∧
      ApiClient.objGet
        (ApiClient.requestFetchInit
          (some (ApiClient.uploadDataOptions file symbol source))).headers
        "Content-Type" = none) ∧
    (∀ payload : String,
      ApiClient.objGet
        (ApiClient.requestFetchInit (some (ApiClient.createForecastOptions payload))).headers
        "Content-Type" = some "application/json") := by
  exact ⟨fun file symbol source => ⟨rfl, rfl⟩, fun payload => rfl⟩

/-- C10: the body `trainModel` posts always has `retrain_existing = false`
(for every symbol, model type and test size, supplied or omitted), and
`test_size = 0.2` whenever the `testSize` argument is omitted. -/
theorem c10_train_body_fields :
    (∀ (symbol modelType : String) (testSize : Option ℚ),
      (ApiClient.trainModelBody symbol modelType testSize).retrain_existing = false) ∧
    (∀ symbol modelType : String,
      (ApiClient.trainModelBody symbol modelType none).test_size = 0.2) := by
  exact ⟨fun symbol modelType testSize => rfl, fun symbol modelType => rfl⟩

namespace Ensemble

theorem sum_map_div (l : List ℚ) (c : ℚ) : (l.map (fun x => x / c)).sum = l.sum / c := by
  induction l with
  | nil => simp
  | cons x xs ih => simp [ih, add_div]

end Ensemble

namespace Registry

theorem foldl_best_cases :
    ∀ (l : List ModelArtifact) (acc : Option ModelArtifact),
      l.foldl best acc = acc ∨ ∃ y ∈ l, l.foldl best acc = some y := by
  intro l
  induction l with
  | nil => intro acc; exact Or.inl rfl
  | cons a rest ih =>
      intro acc
      rw [List.foldl_cons]
      rcases ih (best acc a) with h | h
      · rw [h]
        cases acc with
        | none => exact Or.inr ⟨a, List.mem_cons_self _ _, rfl⟩
        | some b =>
            by_cases hv : b.version < a.version
            · refine Or.inr ⟨a, List.mem_cons_self _ _, ?_⟩
              simp [best, hv]
            · refine Or.inl ?_
              simp [best, hv]
      · obtain ⟨y, hy, he⟩ := h
        exact Or.inr ⟨y, List.mem_cons_of_mem _ hy, he⟩

theorem foldl_best_append_max {l : List ModelArtifact} {x : ModelArtifact}
    (h : ∀ y ∈ l, y.version < x.version) :
    (l ++ [x]).foldl best none = some x := by
  rw [List.foldl_append]
  rcases foldl_best_cases l none with hc | hc
  · rw [hc]
    rfl
  · obtain ⟨y, hy, he⟩ := hc
    rw [he]
    show best (some y) x = some x
    simp [best, h y hy]

end Registry

/-- C2: for every set of N atomic `claim_next` calls against a store holding M
pending jobs with distinct ids and M ≤ N (in particular N > M), the N calls
return exactly M jobs, those jobs have distinct ids (no job is returned to two
callers), each was pending before and is running afterwards, and the other
N − M calls return none. -/
theorem c2_claim_next_mutual_exclusion (N : ℕ) (l : List Engine.Job)
    (hnd : (l.map Engine.Job.id).Nodup)
    (hM : Engine.pendingCount l ≤ N) :
    (Engine.claimN N l).1.length = N ∧
    ((Engine.claimN N l).1.filterMap (fun x => x)).length = Engine.pendingCount l ∧
    (((Engine.claimN N l).1.filterMap (fun x => x)).map Engine.Job.id).Nodup ∧
    (Engine.claimN N l).1.countP (fun x => x.isNone) = N - Engine.pendingCount l ∧
    (∀ j ∈ (Engine.claimN N l).1.filterMap (fun x => x),
      j.status = Engine.JobStatus.running ∧
      (∃ j0 ∈ l, j0.id = j.id ∧ j0.status = Engine.JobStatus.pending) ∧
      j ∈ (Engine.claimN N l).2) := by
  obtain ⟨h1, h2, h3, h4⟩ := Engine.claimN_spec N l hnd hM
  exact ⟨Engine.claimN_results_length N l, h1, h2, h3, h4⟩

/-- Witness for C2: five concurrent claims on a store with two pending jobs
(ids 0 and 2) and one completed job claim exactly two distinct jobs and return
none three times. -/
theorem c2_claim_next_mutual_exclusion_witness :
    (Demo.jobsC2.map Engine.Job.id).Nodup ∧
    Engine.pendingCount Demo.jobsC2 ≤ 5 ∧
    ((Engine.claimN 5 Demo.jobsC2).1.filterMap (fun x => x)).length = 2 ∧
    (Engine.claimN 5 Demo.jobsC2).1.countP (fun x => x.isNone) = 3 := by
  have h := c2_claim_next_mutual_exclusion 5 Demo.jobsC2 (by decide) (by decide)
  exact ⟨by decide, by decide, h.2.1, h.2.2.2.1⟩

namespace Engine

theorem complete_not_running {s : Store} {id : ℕ} {j : Job} (res : JobResult)
    (hfind : s.jobs.find? (fun k => k.id == id) = some j)
    (hnr : j.status ≠ JobStatus.running) :
    complete s id res = (Except.error StoreError.invalidTransition, s) := by
  unfold complete
  rw [hfind]
  simp only [if_neg hnr]

theorem fail_not_running {s : Store} {id : ℕ} {j : Job} (err : String)
    (hfind : s.jobs.find? (fun k => k.id == id) = some j)
    (hnr : j.status ≠ JobStatus.running) :
    fail s id err = (Except.error StoreError.invalidTransition, s) := by
  unfold fail
  rw [hfind]
  simp only [if_neg hnr]

theorem complete_running {s : Store} {id : ℕ} {j : Job} (res : JobResult)
    (hfind : s.jobs.find? (fun k => k.id == id) = some j)
    (hr : j.status = JobStatus.running) :
    complete s id res = (Except.ok (),
      { s with jobs := s.jobs.map (fun k =>
          if k.id == id then
            { k with status := JobStatus.completed, result := some res, error := none }
          else k) }) := by
  unfold complete
  rw [hfind]
  simp only [if_pos hr]

theorem fail_running {s : Store} {id : ℕ} {j : Job} (err : String)
    (hfind : s.jobs.find? (fun k => k.id == id) = some j)
    (hr : j.status = JobStatus.running) :
    fail s id err = (Except.ok (),
      { s with jobs := s.jobs.map (fun k =>
          if k.id == id then
            { k with status := JobStatus.failed, result := none, error := some err }
          else k) }) := by
  unfold fail
  rw [hfind]
  simp only [if_pos hr]

theorem get_status_of_find? {s : Store} {id : ℕ} {j : Job}
    (hf : s.jobs.find? (fun k => k.id == id) = some j) :
    get_status s id = Except.ok (j.status, j.error) := by
  unfold get_status
  rw [hf]

theorem get_result_of_find?_completed {s : Store} {id : ℕ} {j : Job} {r : JobResult}
    (hf : s.jobs.find? (fun k => k.id == id) = some j)
    (hc : j.status = JobStatus.completed) (hr : j.result = some r) :
    get_result s id = Except.ok r := by
  unfold get_result
  rw [hf]
  simp only [if_pos hc, hr]

theorem get_result_of_find?_not_completed {s : Store} {id : ℕ} {j : Job}
    (hf : s.jobs.find? (fun k => k.id == id) = some j)
    (hc : j.status ≠ JobStatus.completed) :
    get_result s id = Except.error StoreError.resultNotReady := by
  unfold get_result
  rw [hf]
  simp only [if_neg hc]

theorem get_of_find? {s : Store} {id : ℕ} {j : Job}
    (hf : s.jobs.find? (fun k => k.id == id) = some j) :
    get s id = Except.ok j := by
  unfold get
  rw [hf]

theorem get_ok_find? {s : Store} {id : ℕ} {j : Job} (h : get s id = Except.ok j) :
    s.jobs.find? (fun k => k.id == id) = some j := by
  cases hf : s.jobs.find? (fun k => k.id == id) with
  | none =>
      exfalso
      unfold get at h
      rw [hf] at h
      exact Except.noConfusion h
  | some j2 =>
      have h2 : get s id = Except.ok j2 := get_of_find? hf
      rw [h2] at h
      injection h with h3
      rw [h3]

end Engine

/-- C3: in every reachable JobStore state, a job has a result iff its status
is completed, a failed job has its error set and no result, and `get_result`
fails with `ResultNotReadyError` exactly on the jobs that are not completed
while returning the stored result of every completed job. -/
theorem c3_result_iff_completed (s : Engine.Store) (hs : Engine.Reachable s) :
    (∀ j ∈ s.jobs,
      (j.result.isSome ↔ j.status = Engine.JobStatus.completed) ∧
      (j.status = Engine.JobStatus.failed → j.error.isSome ∧ j.result = none)) ∧
    (∀ id j, Engine.get s id = Except.ok j →
      (j.status ≠ Engine.JobStatus.completed →
        Engine.get_result s id = Except.error Engine.StoreError.resultNotReady) ∧
      (j.status = Engine.JobStatus.completed →
        ∃ r, j.result = some r ∧ Engine.get_result s id = Except.ok r)) := by
  have hinv := (Engine.reachable_invariant hs).2
  refine ⟨hinv, ?_⟩
  intro id j hget
  have hfind := Engine.get_ok_find? hget
  obtain ⟨hiff, -⟩ := hinv j (List.mem_of_find?_eq_some hfind)
  constructor
  · intro hnc
    exact Engine.get_result_of_find?_not_completed hfind hnc
  · intro hc
    obtain ⟨r, hr⟩ := Option.isSome_iff_exists.mp (hiff.mpr hc)
    exact ⟨r, hr, Engine.get_result_of_find?_completed hfind hc hr⟩

/-- Witness for C3: the store reached by create, claim, complete holds a
completed job whose stored result `get_result` returns. -/
theorem c3_result_iff_completed_witness :
    Engine.Reachable Demo.storeC3 ∧
    Engine.get_result Demo.storeC3 0 = Except.ok Demo.resultA := by
  have hr : Engine.Reachable Demo.storeC3 :=
    Engine.Reachable.complete 0 Demo.resultA
      (Engine.Reachable.claim (Engine.Reachable.create Demo.specA Engine.Reachable.empty))
  refine ⟨hr, ?_⟩
  have hget : Engine.get Demo.storeC3 0 = Except.ok
      { id := 0, kind := Engine.JobKind.forecast, symbols := ["AAPL"]
      , model_type := "ensemble", horizon := 7, status := Engine.JobStatus.completed
      , result := some Demo.resultA, error := none } := rfl
  obtain ⟨r, hr1, hr2⟩ := ((c3_result_iff_completed Demo.storeC3 hr).2 0 _ hget).2 rfl
  injection hr1 with hr1'
  rw [← hr1'] at hr2
  exact hr2

/-- C4: `complete` and `fail` on a job that is not running (in particular a
terminal one) fail with `InvalidTransitionError` leaving the store unchanged,
and a second `complete` after a successful one therefore fails the same way
with the store unchanged by the failed call. -/
theorem c4_terminal_jobs_reject_transitions (s : Engine.Store) (id : ℕ) (j : Engine.Job)
    (res : Engine.JobResult) (err : String)
    (hfind : s.jobs.find? (fun k => k.id == id) = some j)
    (hnr : j.status ≠ Engine.JobStatus.running) :
    Engine.complete s id res = (Except.error Engine.StoreError.invalidTransition, s) ∧
    Engine.fail s id err = (Except.error Engine.StoreError.invalidTransition, s) ∧
    (∀ (s0 : Engine.Store) (id0 : ℕ) (res1 res2 : Engine.JobResult),
      (Engine.complete s0 id0 res1).1 = Except.ok () →
      Engine.complete (Engine.complete s0 id0 res1).2 id0 res2 =
        (Except.error Engine.StoreError.invalidTransition, (Engine.complete s0 id0 res1).2)) := by
  refine ⟨Engine.complete_not_running res hfind hnr, Engine.fail_not_running err hfind hnr, ?_⟩
  intro s0 id0 res1 res2 hok
  obtain ⟨j0, hf0, hr0, hshape⟩ := Engine.complete_ok_shape hok
  have hp0 : ((fun k : Engine.Job => k.id == id0) j0) = true :=
    @List.find?_some Engine.Job (fun k : Engine.Job => k.id == id0) j0 s0.jobs hf0
  have hu : ∀ k : Engine.Job,
      (fun k : Engine.Job => k.id == id0)
        ((fun k : Engine.Job => if k.id == id0 then
            { k with status := Engine.JobStatus.completed, result := some res1, error := none }
          else k) k) =
      (fun k : Engine.Job => k.id == id0) k := by
    intro k
    by_cases hc : (k.id == id0) = true
    · simp only [if_pos hc]
    · simp only [if_neg hc]
  have hfind1 : ((Engine.complete s0 id0 res1).2).jobs.find? (fun k => k.id == id0) =
      some { j0 with status := Engine.JobStatus.completed, result := some res1, error := none } := by
    rw [hshape]
    show (s0.jobs.map (fun k : Engine.Job => if k.id == id0 then
        { k with status := Engine.JobStatus.completed, result := some res1, error := none }
      else k)).find? (fun k => k.id == id0) = _
    rw [Engine.find?_map_congr hu s0.jobs, hf0]
    show some (if (j0.id == id0) = true then
        { j0 with status := Engine.JobStatus.completed, result := some res1, error := none }
      else j0) = _
    rw [if_pos hp0]
  exact Engine.complete_not_running res2 hfind1 (fun hcc => Engine.JobStatus.noConfusion hcc)

/-- Witness for C4: on a store holding one completed job, `complete` and
`fail` reject the transition and leave the store unchanged. -/
theorem c4_terminal_jobs_reject_transitions_witness :
    Demo.storeC4.jobs.find? (fun k => k.id == 0) = some Demo.jobDoneC4 ∧
    Demo.jobDoneC4.status ≠ Engine.JobStatus.running ∧
    Engine.complete Demo.storeC4 0 Demo.resultA =
      (Except.error Engine.StoreError.invalidTransition, Demo.storeC4) ∧
    Engine.fail Demo.storeC4 0 "late" =
      (Except.error Engine.StoreError.invalidTransition, Demo.storeC4) := by
  have h := c4_terminal_jobs_reject_transitions Demo.storeC4 0 Demo.jobDoneC4
    Demo.resultA "late" rfl (by decide)
  exact ⟨rfl, by decide, h.1, h.2.1⟩

namespace Engine

theorem get_status_create (spec : JobSpec) (s : Store)
    (hid : ∀ j ∈ s.jobs, j.id < s.nextId) :
    get_status (create spec s).2 s.nextId = Except.ok (JobStatus.pending, none) := by
  have hnone : s.jobs.find? (fun k => k.id == s.nextId) = none := by
    rw [List.find?_eq_none]
    intro x hx hc
    have := beq_iff_eq.mp hc
    have hlt := hid x hx
    rw [this] at hlt
    exact absurd hlt (lt_irrefl _)
  have hfind : ((create spec s).2).jobs.find? (fun k => k.id == s.nextId) =
      some { id := s.nextId, kind := spec.kind, symbols := spec.symbols
           , model_type := spec.model_type, horizon := spec.horizon
           , status := JobStatus.pending, result := none, error := none } := by
    show (s.jobs ++ [_]).find? _ = _
    rw [List.find?_append, hnone, Option.none_or]
    exact List.find?_cons_of_pos _ (beq_self_eq_true s.nextId)
  rw [get_status_of_find? hfind]

end Engine

/-- C5: the submission operations create a pending job and return its id
without ever raising (the returned job is observable as pending via
`get_status`), and any error raised by the executor while running a claimed
job is caught at the worker boundary and recorded on the job — afterwards the
caller observes status `failed` and the error text via `get_status`, never a
propagated error; a successful execution likewise surfaces only through
status `completed` and the stored result. -/
theorem c5_submit_never_raises_worker_records (s : Engine.Store) (exec : Engine.Executor)
    (hnd : (s.jobs.map Engine.Job.id).Nodup)
    (hid : ∀ j ∈ s.jobs, j.id < s.nextId) :
    (∀ (sym : String) (horizon : ℕ) (mt : String),
      Engine.get_status (Engine.submit_forecast sym horizon mt s).2
          (Engine.submit_forecast sym horizon mt s).1 =
        Except.ok (Engine.JobStatus.pending, none)) ∧
    (∀ (syms : List String) (horizon : ℕ) (mt : String),
      Engine.get_status (Engine.submit_batch syms horizon mt s).2
          (Engine.submit_batch syms horizon mt s).1 =
        Except.ok (Engine.JobStatus.pending, none)) ∧
    (∀ (sym mt : String),
      Engine.get_status (Engine.submit_training sym mt s).2
          (Engine.submit_training sym mt s).1 =
        Except.ok (Engine.JobStatus.pending, none)) ∧
    (∀ (j : Engine.Job) (t : List Engine.Job),
      Engine.claim_next s.jobs = (some j, t) →
      (∀ e, exec j = Except.error e →
        Engine.get_status (Engine.run_claimed exec { s with jobs := t } j) j.id =
          Except.ok (Engine.JobStatus.failed, some e)) ∧
      (∀ r, exec j = Except.ok r →
        Engine.get_status (Engine.run_claimed exec { s with jobs := t } j) j.id =
          Except.ok (Engine.JobStatus.completed, none) ∧
        Engine.get_result (Engine.run_claimed exec { s with jobs := t } j) j.id =
          Except.ok r)) := by
  refine ⟨fun sym horizon mt => Engine.get_status_create _ s hid,
    fun syms horizon mt => Engine.get_status_create _ s hid,
    fun sym mt => Engine.get_status_create _ s hid, ?_⟩
  intro j t hclaim
  obtain ⟨hst, -, -, hmem, -, -⟩ := Engine.claim_next_some hclaim
  have hids : t.map Engine.Job.id = s.jobs.map Engine.Job.id := by
    have h := Engine.claim_next_ids s.jobs
    rw [hclaim] at h
    exact h
  have hndt : (t.map Engine.Job.id).Nodup := by rw [hids]; exact hnd
  have hfj : t.find? (fun k => k.id == j.id) = some j :=
    Engine.find?_id_of_mem_nodup hndt hmem
  have hfj' : ({ s with jobs := t } : Engine.Store).jobs.find? (fun k => k.id == j.id) =
      some j := hfj
  have hbeq : ((fun k : Engine.Job => k.id == j.id) j) = true := beq_self_eq_true j.id
  constructor
  · intro e he
    have hrc : Engine.run_claimed exec { s with jobs := t } j =
        (Engine.fail { s with jobs := t } j.id e).2 := by
      unfold Engine.run_claimed
      rw [he]
    have hshape := Engine.fail_running e hfj' hst
    have hu : ∀ k : Engine.Job,
        (fun k : Engine.Job => k.id == j.id)
          ((fun k : Engine.Job => if k.id == j.id then
              { k with status := Engine.JobStatus.failed, result := none, error := some e }
            else k) k) =
        (fun k : Engine.Job => k.id == j.id) k := by
      intro k
      by_cases hc : (k.id == j.id) = true
      · simp only [if_pos hc]
      · simp only [if_neg hc]
    have hfind2 : ((Engine.fail { s with jobs := t } j.id e).2).jobs.find?
        (fun k => k.id == j.id) =
        some { j with status := Engine.JobStatus.failed, result := none, error := some e } := by
      rw [hshape]
      show (t.map (fun k : Engine.Job => if k.id == j.id then
          { k with status := Engine.JobStatus.failed, result := none, error := some e }
        else k)).find? (fun k => k.id == j.id) = _
      rw [Engine.find?_map_congr hu t, hfj]
      show some (if (j.id == j.id) = true then
          { j with status := Engine.JobStatus.failed, result := none, error := some e }
        else j) = _
      rw [if_pos hbeq]
    rw [hrc]
    rw [Engine.get_status_of_find? hfind2]
  · intro r hr
    have hrc : Engine.run_claimed exec { s with jobs := t } j =
        (Engine.complete { s with jobs := t } j.id r).2 := by
      unfold Engine.run_claimed
      rw [hr]
    have hshape := Engine.complete_running r hfj' hst
    have hu : ∀ k : Engine.Job,
        (fun k : Engine.Job => k.id == j.id)
          ((fun k : Engine.Job => if k.id == j.id then
              { k with status := Engine.JobStatus.completed, result := some r, error := none }
            else k) k) =
        (fun k : Engine.Job => k.id == j.id) k := by
      intro k
      by_cases hc : (k.id == j.id) = true
      · simp only [if_pos hc]
      · simp only [if_neg hc]
    have hfind2 : ((Engine.complete { s with jobs := t } j.id r).2).jobs.find?
        (fun k => k.id == j.id) =
        some { j with status := Engine.JobStatus.completed, result := some r, error := none } := by
      rw [hshape]
      show (t.map (fun k : Engine.Job => if k.id == j.id then
          { k with status := Engine.JobStatus.completed, result := some r, error := none }
        else k)).find? (fun k => k.id == j.id) = _
      rw [Engine.find?_map_congr hu t, hfj]
      show some (if (j.id == j.id) = true then
          { j with status := Engine.JobStatus.completed, result := some r, error := none }
        else j) = _
      rw [if_pos hbeq]
    rw [hrc]
    exact ⟨Engine.get_status_of_find? hfind2,
      Engine.get_result_of_find?_completed hfind2 rfl rfl⟩

/-- Witness for C5: on a store with one pending job, a worker whose executor
raises leaves the job failed with the error recorded, observable via
`get_status`. -/
theorem c5_submit_never_raises_worker_records_witness :
    (Demo.storeC5.jobs.map Engine.Job.id).Nodup ∧
    (∀ j ∈ Demo.storeC5.jobs, j.id < Demo.storeC5.nextId) ∧
    Engine.get_status
        (Engine.run_claimed Demo.execFailC5
          { Demo.storeC5 with jobs := [{ Demo.jobPendingC5 with
              status := Engine.JobStatus.running }] }
          { Demo.jobPendingC5 with status := Engine.JobStatus.running })
        0 =
      Except.ok (Engine.JobStatus.failed, some "ArtifactCorruptError") := by
  have h := (c5_submit_never_raises_worker_records Demo.storeC5 Demo.execFailC5
    (by decide) (by decide)).2.2.2
    { Demo.jobPendingC5 with status := Engine.JobStatus.running }
    [{ Demo.jobPendingC5 with status := Engine.JobStatus.running }] rfl
  exact ⟨by decide, by decide, (h.1 "ArtifactCorruptError" rfl)⟩

namespace Registry

theorem load_latest_of_foldl {mt sym : String} {r : RegistryState} {a : ModelArtifact}
    (h : (r.artifacts.filter (matchesQuery mt sym)).foldl best none = some a) :
    load mt sym none r = Except.ok a := by
  unfold load
  show (match (r.artifacts.filter (matchesQuery mt sym)).foldl best none with
    | some a => Except.ok a
    | none => Except.error RegistryError.modelNotFound) = Except.ok a
  rw [h]

end Registry

/-- C6: whenever at least one model adapter succeeds, `combine` succeeds and
the weights it uses — the inverse historical validation errors of the
succeeding adapters renormalized after excluding the failed ones — sum to
exactly 1, and a single supplied (succeeding) model gets weight 1. -/
theorem c6_ensemble_weights_sum_one (inputs : List Ensemble.AdapterOutput) (horizon : ℕ)
    (hpos : ∀ m ∈ inputs, 0 < m.validationError)
    (hex : ∃ m ∈ inputs, m.predicted.isOk) :
    ∃ out, Ensemble.combine horizon inputs = Except.ok out ∧
      out.weights = Ensemble.ensemble_weights inputs ∧
      out.weights.sum = 1 ∧
      (∀ m : Ensemble.AdapterOutput, 0 < m.validationError → m.predicted.isOk →
        Ensemble.ensemble_weights [m] = [1]) := by
  obtain ⟨m0, hm0, hok0⟩ := hex
  have hne : Ensemble.succeeded inputs ≠ [] := by
    intro hc
    have hmem : m0 ∈ Ensemble.succeeded inputs := List.mem_filter.mpr ⟨hm0, hok0⟩
    rw [hc] at hmem
    exact absurd hmem (List.not_mem_nil m0)
  have hnemp : (Ensemble.succeeded inputs).isEmpty = false := by
    cases hsc : Ensemble.succeeded inputs with
    | nil => exact absurd hsc hne
    | cons a l => rfl
  have hcomb : Ensemble.combine horizon inputs = Except.ok
      { weights := Ensemble.ensemble_weights inputs
      , points := (List.range horizon).map
          (Ensemble.weightedPoint (Ensemble.ensemble_weights inputs)
            (Ensemble.okPredictions inputs)) } := by
    unfold Ensemble.combine
    rw [hnemp]
    rfl
  refine ⟨_, hcomb, rfl, ?_, ?_⟩
  · show (Ensemble.ensemble_weights inputs).sum = 1
    unfold Ensemble.ensemble_weights
    rw [Ensemble.sum_map_div]
    apply div_self
    have hall : ∀ w ∈ (Ensemble.succeeded inputs).map Ensemble.rawWeight, 0 < w := by
      intro w hw
      obtain ⟨m, hm, hmw⟩ := List.mem_map.mp hw
      have hmi : m ∈ inputs := (List.mem_filter.mp hm).1
      rw [← hmw]
      unfold Ensemble.rawWeight
      exact div_pos one_pos (hpos m hmi)
    have hlne : (Ensemble.succeeded inputs).map Ensemble.rawWeight ≠ [] := by
      intro hc
      exact hne (List.map_eq_nil_iff.mp hc)
    exact ne_of_gt (List.sum_pos _ hall hlne)
  · intro m hmpos hmok
    have hsm : Ensemble.succeeded [m] = [m] := by
      unfold Ensemble.succeeded
      simp [List.filter_cons, hmok]
    unfold Ensemble.ensemble_weights
    rw [hsm]
    have hw0 : Ensemble.rawWeight m ≠ 0 := by
      apply ne_of_gt
      unfold Ensemble.rawWeight
      exact div_pos one_pos hmpos
    simp [div_self hw0]

/-- Witness for C6: with two succeeding adapters and one failed one, the
combiner succeeds and its renormalized weights sum to 1. -/
theorem c6_ensemble_weights_sum_one_witness :
    (∀ m ∈ Demo.inputsC6, 0 < m.validationError) ∧
    (∃ m ∈ Demo.inputsC6, m.predicted.isOk) ∧
    ∃ out, Ensemble.combine 3 Demo.inputsC6 = Except.ok out ∧ out.weights.sum = 1 := by
  obtain ⟨out, h1, -, h3, -⟩ :=
    c6_ensemble_weights_sum_one Demo.inputsC6 3 (by decide) (by decide)
  exact ⟨by decide, by decide, out, h1, h3⟩

/-- C7: `save` never overwrites — the previously stored artifacts are an
unchanged initial segment of the registry afterwards — versions of successive
saves strictly increase, and after a second save for the same
(model_type, symbol) a `load` without explicit version returns the newer
(greatest-version) artifact. -/
theorem c7_registry_append_latest (r : Registry.RegistryState)
    (a1 a2 : Registry.ArtifactData)
    (hclock : ∀ art ∈ r.artifacts, art.version < r.clock)
    (hmt : a1.model_type = a2.model_type) (hsym : a1.symbol = a2.symbol) :
    (∀ (b : Registry.ArtifactData) (q : Registry.RegistryState),
      ((Registry.save b q).2).artifacts.take q.artifacts.length = q.artifacts) ∧
    (Registry.save a1 r).1 < (Registry.save a2 (Registry.save a1 r).2).1 ∧
    Registry.load a2.model_type a2.symbol none (Registry.save a2 (Registry.save a1 r).2).2 =
      Except.ok { model_type := a2.model_type, symbol := a2.symbol, version := r.clock + 1
                , params := a2.params, mape := a2.mape } := by
  refine ⟨?_, Nat.lt_succ_self r.clock, ?_⟩
  · intro b q
    show (q.artifacts ++ [_]).take q.artifacts.length = q.artifacts
    exact List.take_left q.artifacts _
  · apply Registry.load_latest_of_foldl
    have hm1 : Registry.matchesQuery a2.model_type a2.symbol
        ⟨a1.model_type, a1.symbol, r.clock, a1.params, a1.mape⟩ = true := by
      simp [Registry.matchesQuery, hmt, hsym]
    have hm2 : Registry.matchesQuery a2.model_type a2.symbol
        ⟨a2.model_type, a2.symbol, r.clock + 1, a2.params, a2.mape⟩ = true := by
      simp [Registry.matchesQuery]
    show (((r.artifacts ++
        [(⟨a1.model_type, a1.symbol, r.clock, a1.params, a1.mape⟩ : Registry.ModelArtifact)]) ++
        [(⟨a2.model_type, a2.symbol, r.clock + 1, a2.params, a2.mape⟩ :
          Registry.ModelArtifact)]).filter
          (Registry.matchesQuery a2.model_type a2.symbol)).foldl Registry.best none = _
    rw [List.filter_append, List.filter_append,
      show ([⟨a1.model_type, a1.symbol, r.clock, a1.params, a1.mape⟩] :
          List Registry.ModelArtifact).filter (Registry.matchesQuery a2.model_type a2.symbol) =
        [⟨a1.model_type, a1.symbol, r.clock, a1.params, a1.mape⟩] from by simp [hm1],
      show ([⟨a2.model_type, a2.symbol, r.clock + 1, a2.params, a2.mape⟩] :
          List Registry.ModelArtifact).filter (Registry.matchesQuery a2.model_type a2.symbol) =
        [⟨a2.model_type, a2.symbol, r.clock + 1, a2.params, a2.mape⟩] from by simp [hm2]]
    apply Registry.foldl_best_append_max
    intro y hy
    rcases List.mem_append.mp hy with hy' | hy'
    · exact Nat.lt_succ_of_lt (hclock y (List.mem_of_mem_filter hy'))
    · rw [List.mem_singleton.mp hy']
      exact Nat.lt_succ_self _

/-- Witness for C7: saving two artifacts for (xgboost, AAPL) into the empty
registry leaves the first untouched and makes version-less load return the
second. -/
theorem c7_registry_append_latest_witness :
    (∀ art ∈ (⟨[], 0⟩ : Registry.RegistryState).artifacts, art.version < 0) ∧
    Registry.load "xgboost" "AAPL" none
        (Registry.save Demo.artB (Registry.save Demo.artA ⟨[], 0⟩).2).2 =
      Except.ok ⟨"xgboost", "AAPL", 1, "params-v2", 2 / 100⟩ := by
  have h := c7_registry_append_latest ⟨[], 0⟩ Demo.artA Demo.artB
    (by intro art ha; exact absurd ha (List.not_mem_nil art)) rfl rfl
  exact ⟨by intro art ha; exact absurd ha (List.not_mem_nil art), h.2.2⟩

/-- C8: for every series at least as long as the minimum window, `fit`
succeeds and `predict` returns exactly `horizon` Predictions with strictly
increasing dates, for every horizon. -/
theorem c8_fit_predict_horizon (series : List Adapter.PricePoint)
    (hlen : Adapter.min_window ≤ series.length) :
    ∃ m, Adapter.fit series = Except.ok m ∧
      ∀ horizon : ℕ,
        (Adapter.predict m horizon).length = horizon ∧
        ((Adapter.predict m horizon).map Engine.Prediction.date).Pairwise (· < ·) := by
  have hnlt : ¬ series.length < Adapter.min_window := not_lt.mpr hlen
  have hne : series ≠ [] := by
    intro hc
    rw [hc] at hlen
    simp [Adapter.min_window] at hlen
  obtain ⟨p, hp⟩ := Option.isSome_iff_exists.mp (List.getLast?_isSome.mpr hne)
  refine ⟨⟨p.date, p.close⟩, ?_, ?_⟩
  · unfold Adapter.fit
    rw [if_neg hnlt, hp]
  · intro horizon
    constructor
    · unfold Adapter.predict
      rw [List.length_map, List.length_range]
    · unfold Adapter.predict
      rw [List.map_map]
      have hcomp : (Engine.Prediction.date ∘ fun i : ℕ =>
          ({ date := p.date + i + 1, point_estimate := p.close
           , confidence_lower := p.close * (95 / 100)
           , confidence_upper := p.close * (105 / 100)
           , probability_up := 1 / 2 } : Engine.Prediction)) =
          fun i : ℕ => p.date + i + 1 := rfl
      rw [hcomp]
      refine List.Pairwise.map _ ?_ (List.pairwise_lt_range horizon)
      intro a b hab
      omega

/-- Witness for C8: fitting a 60-point series succeeds and a 7-day prediction
has 7 strictly increasing dates. -/
theorem c8_fit_predict_horizon_witness :
    Adapter.min_window ≤ Demo.seriesC8.length ∧
    ∃ m, Adapter.fit Demo.seriesC8 = Except.ok m ∧
      (Adapter.predict m 7).length = 7 ∧
      ((Adapter.predict m 7).map Engine.Prediction.date).Pairwise (· < ·) := by
  obtain ⟨m, h1, h2⟩ := c8_fit_predict_horizon Demo.seriesC8 (by decide)
  exact ⟨by decide, m, h1, (h2 7).1, (h2 7).2⟩
